import Mathlib

/-!
Verification of the NanoClaw IPC/agent core.

This file shallowly embeds the correctness-sensitive parts of the repository:

* `ipc-mcp.ts` — the IPC file writer (`writeIpcFile`), the `schedule_task`
  executors of both tool registries (`createIpcMcp` and
  `getIpcToolsForOpenAI`), including privilege-based target rewriting and
  schedule-value validation;
* `builtin-tools.ts` — `resolvePath` and the `Read`, `Edit` and `Grep`
  executors of the sandboxed built-in tool set;
* `custom-provider.ts` — the bounded tool-calling session loop
  (`runCustomProvider`) with session persistence.

JavaScript builtins that the code relies on (`parseInt`, string `replace`
with its `$`-replacement patterns, global-flag `RegExp.test` statefulness,
`path.resolve`) are embedded faithfully.  External libraries
(`cron-parser`'s `CronExpressionParser.parse`, `new Date(...)` parsing) are
abstracted as boolean-valued parameters, since their code is not part of
this repository.
-/

namespace NanoClaw

/-! ## JavaScript primitive embeddings -/

/-- Whitespace characters skipped by JavaScript `parseInt` (the common ASCII
subset that can occur in the string arguments handled here). -/
def jsWs (c : Char) : Bool :=
  c = ' ' || c = '\t' || c = '\n' || c = '\r' || c = '\x0b' || c = '\x0c'

/-- Numeric value of a list of decimal digit characters. -/
def digitsVal (ds : List Char) : Nat :=
  ds.foldl (fun a c => a * 10 + (c.toNat - 48)) 0

/-- Consume an optional leading sign; the flag records a minus sign. -/
def stripSign : List Char → Bool × List Char
  | [] => (false, [])
  | c :: t =>
    if c = '-' then (true, t)
    else if c = '+' then (false, t)
    else (false, c :: t)

/-- JavaScript `parseInt(s, 10)`: skip leading whitespace, read an optional
sign, then the longest prefix of decimal digits; `none` models `NaN`
(no digits found). Trailing garbage is ignored, exactly as in JS. -/
def parseIntBase10 (s : String) : Option Int :=
  let signed := stripSign (s.data.dropWhile jsWs)
  let ds := signed.2.takeWhile Char.isDigit
  if ds.isEmpty then none
  else some (if signed.1 then -(digitsVal ds : Int) else (digitsVal ds : Int))

/-- JavaScript truthiness of an optional string (`undefined` and `""` are
falsy, every other string is truthy). -/
def jsTruthy : Option String → Bool
  | none => false
  | some s => s != ""

/-- JavaScript `x || dflt` for an optional string `x`. -/
def jsOrStr (x : Option String) (dflt : String) : String :=
  match x with
  | none => dflt
  | some s => if s = "" then dflt else s

/-- Boolean test that `needle` is an initial run of `hay` (the character
list form of `String.startsWith`). -/
def leadsWith : List Char → List Char → Bool
  | [], _ => true
  | _ :: _, [] => false
  | a :: as, b :: bs => a = b && leadsWith as bs

/-- Split a character list at every occurrence of the separator
(the semantics of `String.split`/`splitOn` with a one-character
separator); `acc` holds the reversed current segment. -/
def splitChar (sep : Char) : List Char → List Char → List String
  | acc, [] => [String.mk acc.reverse]
  | acc, c :: rest =>
    if c = sep then String.mk acc.reverse :: splitChar sep [] rest
    else splitChar sep (c :: acc) rest

/-- Join path segments with `/` separators. -/
def joinSlash : List String → String
  | [] => ""
  | [s] => s
  | s :: rest => s ++ "/" ++ joinSlash rest

/-- JavaScript `String.prototype.trim` over the whitespace set relevant
here. -/
def jsTrim (s : String) : String :=
  String.mk (((s.data.dropWhile jsWs).reverse.dropWhile jsWs).reverse)

/-- Join a list of strings with newline separators
(`Array.prototype.join('\n')`). -/
def joinNl : List String → String
  | [] => ""
  | [s] => s
  | s :: rest => s ++ "\n" ++ joinNl rest

/-! ## Schedule validation (ipc-mcp.ts)

Both `schedule_task` executors validate `schedule_value` with the same
inline code.  The interval branch is
`const ms = parseInt(schedule_value, 10); if (isNaN(ms) || ms <= 0) reject`.
-/

/-- The interval branch of the schedule validator: accepted iff
`parseInt(v, 10)` is a number and strictly positive. -/
def intervalValid (v : String) : Bool :=
  match parseIntBase10 v with
  | none => false
  | some n => decide (0 < n)

/-- Schedule type enum as enforced by the zod schema of the MCP-path
`schedule_task` tool (`z.enum(['cron', 'interval', 'once'])`). -/
inductive SchedType
  | cron
  | interval
  | once
deriving DecidableEq, Repr

/-- Printed form of a schedule type, as it appears in receipts/payloads. -/
def SchedType.str : SchedType → String
  | .cron => "cron"
  | .interval => "interval"
  | .once => "once"

/-! ## The schedule_task executors -/

/-- Requesting context handed to both tool factories
(`IpcMcpContext { chatJid, groupFolder, isMain }`). -/
structure McpCtx where
  chatJid : String
  groupFolder : String
  isMain : Bool
deriving DecidableEq, Repr

/-- ScheduleRequest payload written by the MCP-path `schedule_task`
executor (`createIpcMcp`, ipc-mcp.ts lines 126–135). -/
structure McpTaskPayload where
  prompt : String
  schedule_type : String
  schedule_value : String
  context_mode : String
  targetJid : String
  createdBy : String
deriving DecidableEq, Repr

/-- Result of one MCP-path `schedule_task` invocation: the returned text,
the `isError` flag, and the list of IPC files written to the tasks
directory during the call. -/
structure McpResult where
  text : String
  isError : Bool
  writes : List McpTaskPayload
deriving DecidableEq, Repr

/-- Payload construction and write of the MCP-path `schedule_task`
executor, reached only after validation passes (ipc-mcp.ts lines
123–145).  `filename` is the name generated by `writeIpcFile`;
`targetOverride` models `target_group_jid`, a field only present in the
zod schema when `isMain` is true; `contextMode` models `context_mode`
(zod-defaulted to `'group'`, then `|| 'group'` again in the code). -/
def scheduleTaskMcpWrite (ctx : McpCtx) (filename prompt : String) (ty : SchedType)
    (v : String) (contextMode targetOverride : Option String) : McpResult :=
  let targetJid :=
    if ctx.isMain && jsTruthy targetOverride then targetOverride.getD ctx.chatJid
    else ctx.chatJid
  let payload : McpTaskPayload :=
    { prompt := prompt
      schedule_type := ty.str
      schedule_value := v
      context_mode := jsOrStr contextMode "group"
      targetJid := targetJid
      createdBy := ctx.groupFolder }
  { text := s!"Task scheduled ({filename}): {ty.str} - {v}",
    isError := false, writes := [payload] }

/-- The MCP-path `schedule_task` executor (`createIpcMcp`, ipc-mcp.ts
lines 94–145): validation first, then payload construction.  `cronOk`
abstracts `CronExpressionParser.parse` succeeding and `dateOk` abstracts
`!isNaN(new Date(v).getTime())` — both are external-library calls. -/
def scheduleTaskMcp (cronOk dateOk : String → Bool) (ctx : McpCtx) (filename : String)
    (prompt : String) (ty : SchedType) (v : String) (contextMode : Option String)
    (targetOverride : Option String) : McpResult :=
  match ty with
  | .cron =>
    if cronOk v then
      scheduleTaskMcpWrite ctx filename prompt ty v contextMode targetOverride
    else
      { text := s!"Invalid cron: \"{v}\". Use format like \"0 9 * * *\" (daily 9am) or \"*/5 * * * *\" (every 5 min).",
        isError := true, writes := [] }
  | .interval =>
    if intervalValid v then
      scheduleTaskMcpWrite ctx filename prompt ty v contextMode targetOverride
    else
      { text := s!"Invalid interval: \"{v}\". Must be positive milliseconds (e.g., \"300000\" for 5 min).",
        isError := true, writes := [] }
  | .once =>
    if dateOk v then
      scheduleTaskMcpWrite ctx filename prompt ty v contextMode targetOverride
    else
      { text := s!"Invalid timestamp: \"{v}\". Use ISO 8601 format like \"2026-02-01T15:30:00.000Z\".",
        isError := true, writes := [] }

/-- ScheduleRequest payload written by the OpenAI-format `schedule_task`
executor (`getIpcToolsForOpenAI`, ipc-mcp.ts lines 395–405). -/
structure OaiTaskPayload where
  prompt : String
  schedule_type : String
  schedule_value : String
  context_mode : String
  groupFolder : String
  chatJid : String
  createdBy : String
deriving DecidableEq, Repr

/-- The OpenAI-format `schedule_task` executor (`getIpcToolsForOpenAI`,
ipc-mcp.ts lines 378–408).  Arguments arrive as an untyped JSON object, so
every field is optional with JS defaulting: `schedule_type` falls back to
`'cron'`, `schedule_value` to `''`.  Returns the result string and the
list of IPC files written. -/
def scheduleTaskOai (cronOk dateOk : String → Bool) (ctx : McpCtx) (filename : String)
    (prompt : String) (tyArg vArg cmArg tgArg : Option String) :
    String × List OaiTaskPayload :=
  let ty := jsOrStr tyArg "cron"
  let v := jsOrStr vArg ""
  if ty = "cron" ∧ ¬cronOk v then
    (s!"Invalid cron: \"{v}\". Use format like \"0 9 * * *\" or \"*/5 * * * *\".", [])
  else if ty = "interval" ∧ ¬intervalValid v then
    (s!"Invalid interval: \"{v}\". Must be positive milliseconds.", [])
  else if ty = "once" ∧ ¬dateOk v then
    (s!"Invalid timestamp: \"{v}\". Use ISO 8601.", [])
  else
    let targetGroup :=
      if ctx.isMain && jsTruthy tgArg then tgArg.getD ctx.groupFolder
      else ctx.groupFolder
    let payload : OaiTaskPayload :=
      { prompt := prompt
        schedule_type := ty
        schedule_value := v
        context_mode := jsOrStr cmArg "group"
        groupFolder := targetGroup
        chatJid := ctx.chatJid
        createdBy := ctx.groupFolder }
    (s!"Task scheduled ({filename}): {ty} - {v}", [payload])

/-! ## Atomic file writer (ipc-mcp.ts, `writeIpcFile`)

`writeIpcFile` serializes the payload, writes it to `filepath + '.tmp'`
and renames that staging file to `filepath`.  Both paths live in the SAME
target directory.  We model the directory as an association list from
file name to content and the write as the sequence of directory states a
concurrent lister could observe: the initial state, the states while the
staging file is being written (a `writeFileSync` is not atomic, so any
prefix of the content may be on disk), and the state after the atomic
rename. -/

/-- Directory state: file name to full current content. -/
abbrev DirState : Type := List (String × String)

/-- Look up a file's content in a directory state. -/
def lookupFile (d : DirState) (name : String) : Option String :=
  match d with
  | [] => none
  | (n, c) :: rest => if n = name then some c else lookupFile rest name

/-- Directory states observable before the rename: the initial directory,
then the staging file `name.tmp` holding each successive prefix of the
serialized content. -/
def preRenameStates (dir : DirState) (name content : String) : List DirState :=
  dir :: (List.range (content.data.length + 1)).map
    (fun k => ((name ++ ".tmp", String.mk (content.data.take k)) :: dir : DirState))

/-- All directory states observable during one `writeIpcFile` call: the
pre-rename states followed by the state after `renameSync` moved the
staging file to its final name. -/
def writeIpcTrace (dir : DirState) (name content : String) : List DirState :=
  preRenameStates dir name content ++ ([((name, content) :: dir : DirState)] : List DirState)

/-! ## A JSON validator

Used to state the spec's "never observes a file whose contents fail to
parse as valid JSON".  This is a standard fuel-indexed JSON grammar
checker over the character list of the file content. -/

/-- JSON insignificant whitespace. -/
def jsonWsChar (c : Char) : Bool :=
  c = ' ' || c = '\t' || c = '\n' || c = '\r'

/-- Consume the remainder of a JSON string literal (the opening quote has
already been consumed); escapes skip the escaped character. -/
def jsonStringRest : List Char → Option (List Char)
  | [] => none
  | '"' :: rest => some rest
  | '\\' :: _ :: rest => jsonStringRest rest
  | _ :: rest => jsonStringRest rest

/-- Consume decimal digits (at least one) from the front. -/
def jsonDigits : List Char → Option (List Char)
  | c :: rest =>
    if c.isDigit then some (rest.dropWhile Char.isDigit) else none
  | [] => none

/-- Consume a JSON number from the front: optional minus, digits, optional
fraction, optional exponent. -/
def jsonNumberRest (cs : List Char) : Option (List Char) := do
  let cs₁ := match cs with
    | '-' :: rest => rest
    | _ => cs
  let cs₂ ← jsonDigits cs₁
  let cs₃ ← match cs₂ with
    | '.' :: rest => jsonDigits rest
    | _ => some cs₂
  match cs₃ with
  | 'e' :: rest | 'E' :: rest =>
    jsonDigits (match rest with
      | '+' :: r => r
      | '-' :: r => r
      | _ => rest)
  | _ => some cs₃

mutual

/-- Consume one JSON value from the front of the character list; `none`
when no valid value starts there.  Fuel bounds the nesting recursion. -/
def jsonVal : Nat → List Char → Option (List Char)
  | 0, _ => none
  | fuel + 1, cs =>
    match cs.dropWhile jsonWsChar with
    | 'n' :: 'u' :: 'l' :: 'l' :: rest => some rest
    | 't' :: 'r' :: 'u' :: 'e' :: rest => some rest
    | 'f' :: 'a' :: 'l' :: 's' :: 'e' :: rest => some rest
    | '"' :: rest => jsonStringRest rest
    | '[' :: rest =>
      (match rest.dropWhile jsonWsChar with
       | ']' :: rest₂ => some rest₂
       | _ => jsonArrTail fuel rest)
    | '\x7b' :: rest =>
      (match rest.dropWhile jsonWsChar with
       | '\x7d' :: rest₂ => some rest₂
       | _ => jsonObjTail fuel rest)
    | other => jsonNumberRest other

/-- Consume the elements of a non-empty JSON array, up to and including
the closing bracket. -/
def jsonArrTail : Nat → List Char → Option (List Char)
  | 0, _ => none
  | fuel + 1, cs =>
    match jsonVal fuel cs with
    | none => none
    | some rest =>
      match rest.dropWhile jsonWsChar with
      | ',' :: rest₂ => jsonArrTail fuel rest₂
      | ']' :: rest₂ => some rest₂
      | _ => none

/-- Consume the members of a non-empty JSON object, up to and including
the closing brace. -/
def jsonObjTail : Nat → List Char → Option (List Char)
  | 0, _ => none
  | fuel + 1, cs =>
    match cs.dropWhile jsonWsChar with
    | '"' :: rest =>
      (match jsonStringRest rest with
       | none => none
       | some rest₂ =>
         match rest₂.dropWhile jsonWsChar with
         | ':' :: rest₃ =>
           (match jsonVal fuel rest₃ with
            | none => none
            | some rest₄ =>
              match rest₄.dropWhile jsonWsChar with
              | ',' :: rest₅ => jsonObjTail fuel rest₅
              | '\x7d' :: rest₅ => some rest₅
              | _ => none)
         | _ => none)
    | _ => none

end

/-- A string parses as valid JSON: one value followed by only
whitespace. -/
def jsonValid (s : String) : Bool :=
  match jsonVal (s.data.length + 2) s.data with
  | some rest => (rest.dropWhile jsonWsChar).isEmpty
  | none => false

/-! ## Sandboxed path resolution (builtin-tools.ts, `resolvePath`) -/

/-- The fixed sandbox root of the built-in tools. -/
def WORKSPACE_GROUP : String := "/workspace/group"

/-- One step of POSIX path normalization over the already-split segments,
with the processed segments kept as a reversed stack: empty and `.`
segments vanish, `..` pops (and is dropped at the root, as
`path.resolve` does for an absolute base). -/
def normStep (stack : List String) (seg : String) : List String :=
  if seg = "" ∨ seg = "." then stack
  else if seg = ".." then stack.tail
  else seg :: stack

/-- Node's `path.resolve(base, rel)` for an absolute POSIX `base`: if
`rel` is absolute it is normalized alone, otherwise the concatenation is
normalized. -/
def pathResolve (base rel : String) : String :=
  let combined :=
    match rel.data with
    | '/' :: _ => rel
    | _ => base ++ "/" ++ rel
  let segs := (splitChar '/' [] combined.data).foldl normStep []
  "/" ++ joinSlash segs.reverse

/-- `resolvePath` (builtin-tools.ts lines 541–547): resolve against the
sandbox root and throw unless the result string starts with
`/workspace/group`. -/
def resolvePath (relativePath : String) : Except String String :=
  let resolved := pathResolve WORKSPACE_GROUP relativePath
  if leadsWith WORKSPACE_GROUP.data resolved.data then Except.ok resolved
  else Except.error s!"Path {relativePath} resolves outside /workspace/group"

/-- A path is actually within the sandbox root: it is the root itself or
lives strictly below it. -/
def withinRoot (p : String) : Bool :=
  p == WORKSPACE_GROUP || leadsWith (WORKSPACE_GROUP ++ "/").data p.data

/-- The `Read` tool executor (builtin-tools.ts lines 636–643) over an
abstract file system.  A `resolvePath` throw escapes the executor and is
turned into an `Error:` result by the tool-call dispatcher in
`custom-provider.ts`; a `readFileSync` failure is caught in the tool. -/
def readExec (fsys : String → Option String) (p : String) : String :=
  match resolvePath p with
  | Except.error e => s!"Error: {e}"
  | Except.ok abs =>
    match fsys abs with
    | some content => content
    | none => s!"Error: ENOENT: no such file or directory, open {abs}"

/-! ## The Edit tool (builtin-tools.ts, lines 692–705)

`content.replace(oldStr, newStr)` with a string pattern replaces the first
occurrence, but JavaScript interprets replacement patterns in `newStr`:
`$$`, `$&`, `` $` `` and `$'`.  The embedding models that faithfully. -/

/-- Index of the first occurrence of `needle` in `hay`
(JavaScript `String.prototype.indexOf`; `includes` is `≠ -1`). -/
def firstOcc (hay needle : List Char) : Option Nat :=
  if leadsWith needle hay then some 0
  else
    match hay with
    | [] => none
    | _ :: t => (firstOcc t needle).map (· + 1)

/-- The backquote character, operand of the `$`-pattern that inserts the
part of the string before the match. -/
def backChar : Char := '\x60'

/-- The single-quote character, operand of the `$`-pattern that inserts
the part of the string after the match. -/
def quotChar : Char := '\x27'

/-- Expansion of a JavaScript replacement string against match `m`, text
before the match `b` and text after the match `a`.  With a string search
pattern there are no capture groups, so `$1`-style patterns stay
literal. -/
def expandRepl (m b a : List Char) : List Char → List Char
  | [] => []
  | c :: rest =>
    if c = '$' then
      match rest with
      | [] => [c]
      | d :: rest₂ =>
        if d = '$' then '$' :: expandRepl m b a rest₂
        else if d = '&' then m ++ expandRepl m b a rest₂
        else if d = backChar then b ++ expandRepl m b a rest₂
        else if d = quotChar then a ++ expandRepl m b a rest₂
        else c :: d :: expandRepl m b a rest₂
    else c :: expandRepl m b a rest

/-- JavaScript `s.replace(old, new)` with string arguments: first
occurrence only, replacement patterns expanded. -/
def jsReplaceFirst (s old new : String) : String :=
  match firstOcc s.data old.data with
  | none => s
  | some i =>
    String.mk (s.data.take i
      ++ expandRepl old.data (s.data.take i) (s.data.drop (i + old.data.length)) new.data
      ++ s.data.drop (i + old.data.length))

/-- Literal first-occurrence splice, following the spec's words: the
content with exactly the first occurrence of `old` replaced by the
literal `new`. -/
def spliceFirst (s old new : String) : String :=
  match firstOcc s.data old.data with
  | none => s
  | some i =>
    String.mk (s.data.take i ++ new.data ++ s.data.drop (i + old.data.length))

/-- The `Edit` tool executor over the state of the target file (`none`
models a missing file, whose `readFileSync` throw is caught and returned
as an error).  Returns the tool's textual result and the file state after
the call. -/
def editExec (file : Option String) (old new path : String) : String × Option String :=
  match file with
  | none => (s!"Error: ENOENT: no such file or directory, open {path}", none)
  | some content =>
    if (firstOcc content.data old.data).isSome then
      (s!"Edited {path}", some (jsReplaceFirst content old new))
    else
      ("Error: old_string not found in file", some content)

/-! ## The Grep tool (builtin-tools.ts, lines 748–771)

The executor builds `new RegExp(pattern, 'g')` ONCE and then calls
`re.test(line)` for every line of every file.  A global-flag regex is
stateful: `test` starts matching at `lastIndex`, sets `lastIndex` to the
match end on success and resets it to 0 on failure.  The regex engine
itself is abstracted as a `find` function returning the first match at or
after a start position. -/

/-- Abstract compiled regex: `find s i` returns the start and end of the
first match in `s` at position `≥ i`, if any. -/
structure GRegex where
  find : String → Nat → Option (Nat × Nat)

/-- JavaScript `re.test(s)` for a global-flag regex with current
`lastIndex`; returns the test result and the new `lastIndex`. -/
def jsTestG (re : GRegex) (s : String) (lastIndex : Nat) : Bool × Nat :=
  match re.find s lastIndex with
  | some se => (true, se.2)
  | none => (false, 0)

/-- Per-file loop of the Grep executor: test every line, threading the
regex `lastIndex` through, and emit `rel:lineNo: trimmedLine` for the
lines whose test succeeded. -/
def grepFileGo (re : GRegex) (rel : String) : List String → Nat → Nat → List String × Nat
  | [], _, lastIndex => ([], lastIndex)
  | l :: rest, i, lastIndex =>
    let t := jsTestG re l lastIndex
    let tail := grepFileGo re rel rest (i + 1) t.2
    let trimmed := jsTrim l
    (if t.1 then s!"{rel}:{i + 1}: {trimmed}" :: tail.1 else tail.1, tail.2)

/-- The Grep executor over the enumerated files (relative path and
decoded content); returns the joined match lines or the no-match
sentinel.  The single regex instance is threaded through all files. -/
def grepExec (re : GRegex) (files : List (String × String)) : String :=
  let folded := files.foldl
    (fun acc f =>
      let r := grepFileGo re f.1 (splitChar '\n' [] f.2.data) 0 acc.2
      (acc.1 ++ r.1, r.2))
    (([], 0) : List String × Nat)
  if folded.1.isEmpty then "(no matches)" else joinNl folded.1

/-- Stateless matcher for the literal regular expression `x`: first
occurrence of the character `x` at or after the start position. -/
def findLitX (s : String) (i : Nat) : Option (Nat × Nat) :=
  match (s.data.drop i).findIdx? (· = 'x') with
  | some j => some (i + j, i + j + 1)
  | none => none

/-- The compiled form of the pattern `x` handed to the Grep executor. -/
def regexLitX : GRegex := ⟨findLitX⟩

/-! ## The tool-calling session loop (custom-provider.ts, `runCustomProvider`)

The loop is embedded from line 140 on (after provider configuration has
been resolved; a missing configuration errors out before the loop and is
out of scope of the loop claims).  The remote completion endpoint is
abstracted as a function from the 1-based round number to a completion
result; tool executors are abstracted as a partial name-to-function map,
with a thrown `JSON.parse`/executor error already folded into the
returned text.  Session persistence is modelled by returning the list of
`saveSession` calls the run performs. -/

/-- One tool call requested by the model (`tc.id`,
`tc.function?.name`, `tc.function?.arguments ?? '{}'`). -/
structure ToolCall where
  id : String
  name : Option String
  argsStr : String
deriving DecidableEq, Repr

/-- The `content` field of a completion message: a string, an array of
fragments (already projected to `c?.text ?? ''`), or anything else
(treated as empty text by the code). -/
inductive ChatContent
  | str (s : String)
  | parts (ps : List String)
  | other
deriving DecidableEq, Repr

/-- An assistant message from the completion endpoint. -/
structure ChatMsg where
  tool_calls : List ToolCall
  content : ChatContent
deriving DecidableEq, Repr

/-- Result of one remote completion call: a response (whose
`choices?.[0]?.message` may be missing, modelled by `none`), or a thrown
transport error. -/
inductive Completion
  | ok (msg : Option ChatMsg)
  | exn (e : String)

/-- One entry of the conversation history. -/
inductive LoopMsg
  | user (s : String)
  | assistant (m : ChatMsg)
  | tool (id content : String)
deriving DecidableEq, Repr

/-- Extraction of the final text from a message content
(custom-provider.ts lines 209–214). -/
def contentText : ChatContent → String
  | .str s => s
  | .parts ps => String.join ps
  | .other => ""

/-- Dispatch of one tool call against the merged executor map
(custom-provider.ts lines 185–199). -/
def dispatchTool (execMap : String → Option (String → String)) (tc : ToolCall) : String :=
  match tc.name with
  | none => "Unknown tool: null"
  | some n =>
    match execMap n with
    | none => s!"Unknown tool: {n}"
    | some f => f tc.argsStr

/-- Reasons the loop exits before producing a result: a response without
a message, or a thrown transport error. -/
inductive Fault
  | noMessage
  | exn (e : String)
deriving DecidableEq, Repr

/-- State of the loop when it stops: the final value of `round`, the
accumulated message history, the `result` variable and the fault if
one occurred. -/
structure LoopRes where
  round : Nat
  messages : List LoopMsg
  result : Option String
  fault : Option Fault

/-- The round budget (`const maxRounds = 30`). -/
def maxRounds : Nat := 30

/-- The `while (round < maxRounds)` loop of `runCustomProvider`
(custom-provider.ts lines 160–217), with `fuel = maxRounds - round`
remaining iterations. -/
def loopGo (endpoint : Nat → Completion) (execMap : String → Option (String → String)) :
    Nat → Nat → List LoopMsg → LoopRes
  | 0, round, msgs => ⟨round, msgs, none, none⟩
  | fuel + 1, round, msgs =>
    match endpoint (round + 1) with
    | .exn e => ⟨round + 1, msgs, none, some (.exn e)⟩
    | .ok none => ⟨round + 1, msgs, none, some .noMessage⟩
    | .ok (some msg) =>
      let msgs₁ := msgs ++ [LoopMsg.assistant msg]
      if msg.tool_calls.isEmpty then
        let text := contentText msg.content
        ⟨round + 1, msgs₁, if text = "" then none else some text, none⟩
      else
        loopGo endpoint execMap fuel (round + 1)
          (msgs₁ ++ msg.tool_calls.map (fun tc => LoopMsg.tool tc.id (dispatchTool execMap tc)))

/-- The final `writeOutput` payload (status, result, error). -/
structure ContainerOutput where
  status : String
  result : Option String
  error : Option String
deriving DecidableEq, Repr

/-- The observable outcome of one `runCustomProvider` invocation: the
written output, the session id in play, the `saveSession` calls
performed, the number of completion calls made, and the final in-memory
history. -/
structure RunOutcome where
  output : ContainerOutput
  sessionId : String
  saves : List (String × List LoopMsg)
  endpointCalls : Nat
  finalMessages : List LoopMsg

/-- The caller-supplied input (prompt, optional session id, scheduled
marker flag). -/
structure RunInput where
  prompt : String
  sessionId : Option String
  isScheduledTask : Bool

/-- The marker prefixed to the prompt of a scheduled-task invocation. -/
def scheduledMarker : String :=
  "[SCHEDULED TASK - You are running automatically. Use mcp__nanoclaw__send_message if needed to communicate with the user.]\n\n"

/-- Post-loop epilogue of `runCustomProvider` (custom-provider.ts lines
170–245): the early error returns for a missing message and a thrown
call, the round-budget check, and otherwise the `saveSession` call
followed by the success output. -/
def finishRun (sessionId : String) (r : LoopRes) : RunOutcome :=
  match r.fault with
  | some (.exn e) =>
    ⟨⟨"error", none, some e⟩, sessionId, [], r.round, r.messages⟩
  | some .noMessage =>
    ⟨⟨"error", none, some "No message in completion response"⟩, sessionId, [], r.round, r.messages⟩
  | none =>
    if r.result = none ∧ maxRounds ≤ r.round then
      ⟨⟨"error", none, some "Max tool rounds exceeded"⟩, sessionId, [], r.round, r.messages⟩
    else
      ⟨⟨"success", r.result, none⟩, sessionId, [(sessionId, r.messages)], r.round, r.messages⟩

/-- `runCustomProvider` from the point the provider client exists
(custom-provider.ts lines 140–246): load or create the session, append
the user prompt, run the bounded loop, and finish as above.  `store`
models the session directory content at entry, `freshId` the value
`randomSessionId()` would produce. -/
def runCP (endpoint : Nat → Completion) (execMap : String → Option (String → String))
    (store : String → Option (List LoopMsg)) (freshId : String) (input : RunInput) :
    RunOutcome :=
  let sessionId := input.sessionId.getD freshId
  let loaded := (store sessionId).getD []
  let prompt :=
    if input.isScheduledTask then scheduledMarker ++ input.prompt else input.prompt
  let msgs₀ := loaded ++ [LoopMsg.user prompt]
  finishRun sessionId (loopGo endpoint execMap maxRounds 0 msgs₀)

/-- Effect of a list of `saveSession` calls on the session store. -/
def applySaves (saves : List (String × List LoopMsg))
    (store : String → Option (List LoopMsg)) : String → Option (List LoopMsg) :=
  saves.foldl (fun st p => fun sid => if sid = p.1 then some p.2 else st sid) store

/-- A completion endpoint response that requests at least one tool call
and never plain text. -/
def toolCallResponse (c : Completion) : Prop :=
  ∃ m, c = Completion.ok (some m) ∧ m.tool_calls ≠ []

/-! ## Helper lemmas -/

/-- Every element kept by `takeWhile` satisfies the predicate. -/
theorem mem_takeWhile_pred {α : Type} {p : α → Bool} :
    ∀ {l : List α} {c : α}, c ∈ l.takeWhile p → p c = true := by
  intro l
  induction l with
  | nil => intro c h; simp [List.takeWhile] at h
  | cons a t ih =>
    intro c h
    by_cases ha : p a
    · rw [List.takeWhile_cons, if_pos ha] at h
      rcases List.mem_cons.mp h with rfl | h'
      · exact ha
      · exact ih h'
    · rw [List.takeWhile_cons, if_neg ha] at h
      simp at h

/-- The first element surviving `dropWhile` fails the predicate. -/
theorem head_dropWhile_pred {α : Type} {p : α → Bool} :
    ∀ {l : List α} {c : α}, (l.dropWhile p).head? = some c → p c = false := by
  intro l
  induction l with
  | nil => intro c h; simp [List.dropWhile] at h
  | cons a t ih =>
    intro c h
    by_cases ha : p a
    · rw [List.dropWhile_cons, if_pos ha] at h
      exact ih h
    · rw [List.dropWhile_cons, if_neg ha] at h
      simp at h
      rw [← h]
      exact Bool.of_not_eq_true ha

/-- `dropWhile` consumes a block of elements that all satisfy the
predicate. -/
theorem dropWhile_append_all {α : Type} {p : α → Bool} {a b : List α}
    (h : ∀ c ∈ a, p c = true) : (a ++ b).dropWhile p = b.dropWhile p := by
  induction a with
  | nil => rfl
  | cons x t ih =>
    rw [List.cons_append, List.dropWhile_cons, if_pos (h x (List.mem_cons_self x t))]
    exact ih (fun c hc => h c (List.mem_cons_of_mem x hc))

/-- `dropWhile` is the identity when the head already fails the
predicate. -/
theorem dropWhile_head_neg {α : Type} {p : α → Bool} {b : List α}
    (h : ∀ c, b.head? = some c → p c = false) : b.dropWhile p = b := by
  cases b with
  | nil => rfl
  | cons x t =>
    rw [List.dropWhile_cons, if_neg]
    simp [h x rfl]

/-- `takeWhile` keeps exactly an initial all-true block when the next
element fails the predicate. -/
theorem takeWhile_append_all {α : Type} {p : α → Bool} {a b : List α}
    (ha : ∀ c ∈ a, p c = true) (hb : ∀ c, b.head? = some c → p c = false) :
    (a ++ b).takeWhile p = a := by
  induction a with
  | nil =>
    cases b with
    | nil => rfl
    | cons x t =>
      rw [List.nil_append, List.takeWhile_cons, if_neg]
      simp [hb x rfl]
  | cons x t ih =>
    rw [List.cons_append, List.takeWhile_cons, if_pos (ha x (List.mem_cons_self x t)),
      ih (fun c hc => ha c (List.mem_cons_of_mem x hc))]

/-- A decimal digit is not `parseInt` whitespace. -/
theorem not_jsWs_of_digit {c : Char} (h : c.isDigit = true) : jsWs c = false := by
  cases hc : jsWs c
  · rfl
  · exfalso
    unfold jsWs at hc
    simp only [Bool.or_eq_true, decide_eq_true_eq] at hc
    rcases hc with ((((rfl | rfl) | rfl) | rfl) | rfl) | rfl <;> simp [Char.isDigit] at h

/-- A decimal digit is not a sign character. -/
theorem digit_ne_sign {c : Char} (h : c.isDigit = true) : c ≠ '-' ∧ c ≠ '+' := by
  constructor <;> rintro rfl <;> simp [Char.isDigit] at h

/-- Appending `.tmp` changes a file name. -/
theorem tmp_name_ne (name : String) : name ++ ".tmp" ≠ name := by
  intro h
  have hlen := congrArg String.length h
  rw [String.length_append] at hlen
  have h4 : (".tmp" : String).length = 4 := rfl
  omega

/-! ## C1 — non-privileged target rewriting -/

/-- C1: for every `schedule_task` invocation from a non-privileged
context (`isMain = false`) with a target override supplied, every
ScheduleRequest payload the call writes targets the requester's own
conversation (MCP path: `targetJid = chatJid`; OpenAI path:
`groupFolder` is the requester's own folder and `chatJid` the
requester's own jid), never the override; the rewrite happens when the
payload is constructed. -/
theorem c1_nonmain_target_rewrite
    (cronOk dateOk : String → Bool) (ctx : McpCtx) (fn₁ fn₂ prompt v : String)
    (ty : SchedType) (cm tyArg vArg cmArg : Option String) (tj tg : String)
    (hMain : ctx.isMain = false) :
    ((scheduleTaskMcp cronOk dateOk ctx fn₁ prompt ty v cm (some tj)).writes.all
      (fun p => p.targetJid == ctx.chatJid)) = true
    ∧ ((scheduleTaskOai cronOk dateOk ctx fn₂ prompt tyArg vArg cmArg (some tg)).2.all
      (fun p => p.groupFolder == ctx.groupFolder && p.chatJid == ctx.chatJid)) = true := by
  constructor
  · cases ty <;>
      simp only [scheduleTaskMcp] <;>
      split <;>
      simp [scheduleTaskMcpWrite, hMain]
  · simp only [scheduleTaskOai]
    split
    · simp
    · split
      · simp
      · split
        · simp
        · simp [hMain]

/-- Concrete instance of C1: a non-privileged context supplying an
explicit foreign target still writes payloads targeting itself. -/
theorem c1_witness :
    ((scheduleTaskMcp (fun _ => true) (fun _ => true) ⟨"own-jid", "own-folder", false⟩
        "f1.json" "do it" SchedType.cron "*/5 * * * *" (some "group") (some "other-jid")).writes.all
      (fun p => p.targetJid == "own-jid")) = true
    ∧ ((scheduleTaskOai (fun _ => true) (fun _ => true) ⟨"own-jid", "own-folder", false⟩
        "f2.json" "do it" (some "cron") (some "*/5 * * * *") none (some "other-folder")).2.all
      (fun p => p.groupFolder == "own-folder" && p.chatJid == "own-jid")) = true :=
  c1_nonmain_target_rewrite (fun _ => true) (fun _ => true) ⟨"own-jid", "own-folder", false⟩
    "f1.json" "f2.json" "do it" "*/5 * * * *" SchedType.cron (some "group") (some "cron")
    (some "*/5 * * * *") none "other-jid" "other-folder" rfl

/-! ## C2 — sandbox path resolution -/

set_option maxRecDepth 8000 in
/-- C2: the prefix check of `resolvePath` does not confine resolution to
the sandbox root.  The relative path `../group-pwned/secret.txt` resolves
to `/workspace/group-pwned/secret.txt`, which is outside the root
`/workspace/group` but passes `startsWith('/workspace/group')`, so the
`Read` executor proceeds to perform I/O on the escaped path instead of
failing closed. -/
theorem c2_sandbox_escape :
    resolvePath "../group-pwned/secret.txt"
      = Except.ok "/workspace/group-pwned/secret.txt"
    ∧ withinRoot "/workspace/group-pwned/secret.txt" = false
    ∧ readExec
        (fun p => if p = "/workspace/group-pwned/secret.txt"
                  then some "outside-root-content" else none)
        "../group-pwned/secret.txt" = "outside-root-content" := by
  refine ⟨rfl, rfl, rfl⟩

/-! ## C3 — atomic writer visibility -/

/-- The claim as stated: for every payload (any serialized content that
is valid JSON) written through `writeIpcFile`, every file visible in any
directory state observable during the write parses as valid JSON. -/
def ipcListingAlwaysValidJson : Prop :=
  ∀ (dir : DirState) (name content : String), jsonValid content = true →
    ∀ s ∈ writeIpcTrace dir name content, ∀ e ∈ s, jsonValid e.2 = true

/-- C3 counterexample, refuting `ipcListingAlwaysValidJson` at a concrete
write: the payload serialization is valid JSON, yet the write trace of
`writeIpcFile` into an empty directory contains an observable directory
state whose staging file `1700-abc.json.tmp` (in the same target
directory) holds the single byte `{`, which fails to parse as JSON. -/
theorem c3_counterexample :
    jsonValid "\x7b\n  \"type\": \"message\"\n\x7d" = true
    ∧ ([("1700-abc.json.tmp", "\x7b")] : DirState)
        ∈ writeIpcTrace [] "1700-abc.json" "\x7b\n  \"type\": \"message\"\n\x7d"
    ∧ ("1700-abc.json.tmp", "\x7b")
        ∈ ([("1700-abc.json.tmp", "\x7b")] : DirState)
    ∧ jsonValid "\x7b" = false := by
  refine ⟨by decide, by decide, by decide, by decide⟩

/-- C3 amended: under its final name the payload is never visible with
incomplete contents — every directory state observable before the rename
has no file under the final name at all (the staging file uses the
distinct name `<name>.tmp`), and the state after the atomic rename shows
the complete content.  The rename is thus the only operation making the
payload visible under its final name; the staging file itself, however,
is observable in the same directory with partial contents. -/
theorem c3_final_name_only_complete (dir : DirState) (name content : String)
    (hfresh : lookupFile dir name = none) :
    (∀ s ∈ preRenameStates dir name content, lookupFile s name = none)
    ∧ lookupFile ((name, content) :: dir) name = some content := by
  constructor
  · intro s hs
    rcases List.mem_cons.mp hs with rfl | hs'
    · exact hfresh
    · obtain ⟨k, -, rfl⟩ := List.mem_map.mp hs'
      show lookupFile ((name ++ ".tmp", _) :: dir) name = none
      unfold lookupFile
      rw [if_neg (tmp_name_ne name)]
      exact hfresh
  · unfold lookupFile
    rw [if_pos rfl]

/-- Concrete instance of C3 (amended): while the staging file holds a
content prefix the final name is absent, and after the rename it holds
the full content. -/
theorem c3_witness :
    lookupFile ([("a.json.tmp", "x")] : DirState) "a.json" = none
    ∧ lookupFile ([("a.json", "xy")] : DirState) "a.json" = some "xy" :=
  ⟨(c3_final_name_only_complete [] "a.json" "xy" rfl).1 _ (by decide),
   (c3_final_name_only_complete [] "a.json" "xy" rfl).2⟩

/-! ## C4 — validation before any IPC write -/

/-- C4: a `schedule_task` invocation whose `schedule_value` fails
validation for its declared `schedule_type` returns an error to the
caller and writes nothing to the tasks directory, on both the MCP path
(`isError` result, empty write list) and the OpenAI path (an
`Invalid ...` message, empty write list). -/
theorem c4_validation_before_write
    (cronOk dateOk : String → Bool) (ctx : McpCtx) (fn₁ fn₂ prompt v : String)
    (cm tgJ cmArg tgArg : Option String) (ty : SchedType) (tyS : String)
    (hMcp : (ty = .cron ∧ cronOk v = false) ∨ (ty = .interval ∧ intervalValid v = false)
            ∨ (ty = .once ∧ dateOk v = false))
    (hOai : (tyS = "cron" ∧ cronOk v = false) ∨ (tyS = "interval" ∧ intervalValid v = false)
            ∨ (tyS = "once" ∧ dateOk v = false)) :
    (scheduleTaskMcp cronOk dateOk ctx fn₁ prompt ty v cm tgJ).isError = true
    ∧ (scheduleTaskMcp cronOk dateOk ctx fn₁ prompt ty v cm tgJ).writes = []
    ∧ (scheduleTaskOai cronOk dateOk ctx fn₂ prompt (some tyS) (some v) cmArg tgArg).2 = []
    ∧ ((scheduleTaskOai cronOk dateOk ctx fn₂ prompt (some tyS) (some v) cmArg tgArg).1
        = s!"Invalid cron: \"{v}\". Use format like \"0 9 * * *\" or \"*/5 * * * *\"."
      ∨ (scheduleTaskOai cronOk dateOk ctx fn₂ prompt (some tyS) (some v) cmArg tgArg).1
        = s!"Invalid interval: \"{v}\". Must be positive milliseconds."
      ∨ (scheduleTaskOai cronOk dateOk ctx fn₂ prompt (some tyS) (some v) cmArg tgArg).1
        = s!"Invalid timestamp: \"{v}\". Use ISO 8601.") := by
  have hv : (if v = "" then "" else v) = v := by
    by_cases hve : v = ""
    · subst hve
      rfl
    · simp [hve]
  refine ⟨?_, ?_, ?_, ?_⟩
  · rcases hMcp with ⟨rfl, hb⟩ | ⟨rfl, hb⟩ | ⟨rfl, hb⟩ <;>
      simp [scheduleTaskMcp, hb]
  · rcases hMcp with ⟨rfl, hb⟩ | ⟨rfl, hb⟩ | ⟨rfl, hb⟩ <;>
      simp [scheduleTaskMcp, hb]
  · rcases hOai with ⟨rfl, hb⟩ | ⟨rfl, hb⟩ | ⟨rfl, hb⟩ <;>
      simp [scheduleTaskOai, jsOrStr, hv, hb]
  · rcases hOai with ⟨rfl, hb⟩ | ⟨rfl, hb⟩ | ⟨rfl, hb⟩
    · left
      simp [scheduleTaskOai, jsOrStr, hv, hb]
    · right; left
      simp [scheduleTaskOai, jsOrStr, hv, hb]
    · right; right
      simp [scheduleTaskOai, jsOrStr, hv, hb]

/-- Concrete instance of C4: an interval of `"-5"` is rejected with an
error and produces zero IPC writes on both executor paths. -/
theorem c4_witness :
    (scheduleTaskMcp (fun _ => true) (fun _ => true) ⟨"j", "g", true⟩ "f1.json"
        "p" SchedType.interval "-5" none none).isError = true
    ∧ (scheduleTaskMcp (fun _ => true) (fun _ => true) ⟨"j", "g", true⟩ "f1.json"
        "p" SchedType.interval "-5" none none).writes = []
    ∧ (scheduleTaskOai (fun _ => true) (fun _ => true) ⟨"j", "g", true⟩ "f2.json"
        "p" (some "interval") (some "-5") none none).2 = []
    ∧ ((scheduleTaskOai (fun _ => true) (fun _ => true) ⟨"j", "g", true⟩ "f2.json"
        "p" (some "interval") (some "-5") none none).1
        = s!"Invalid cron: \"-5\". Use format like \"0 9 * * *\" or \"*/5 * * * *\"."
      ∨ (scheduleTaskOai (fun _ => true) (fun _ => true) ⟨"j", "g", true⟩ "f2.json"
        "p" (some "interval") (some "-5") none none).1
        = s!"Invalid interval: \"-5\". Must be positive milliseconds."
      ∨ (scheduleTaskOai (fun _ => true) (fun _ => true) ⟨"j", "g", true⟩ "f2.json"
        "p" (some "interval") (some "-5") none none).1
        = s!"Invalid timestamp: \"-5\". Use ISO 8601.") :=
  c4_validation_before_write (fun _ => true) (fun _ => true) ⟨"j", "g", true⟩
    "f1.json" "f2.json" "p" "-5" none none none none SchedType.interval "interval"
    (Or.inr (Or.inl ⟨rfl, by decide⟩)) (Or.inr (Or.inl ⟨rfl, by decide⟩))

/-! ## C5 — round budget -/

/-- When every completion response requests tool calls, the loop consumes
all its fuel, makes one endpoint call per unit of fuel, and ends with no
result and no fault. -/
theorem loopGo_all_tool_calls (endpoint : Nat → Completion)
    (execMap : String → Option (String → String))
    (h : ∀ n, toolCallResponse (endpoint n)) :
    ∀ fuel round msgs,
      (loopGo endpoint execMap fuel round msgs).fault = none
      ∧ (loopGo endpoint execMap fuel round msgs).result = none
      ∧ (loopGo endpoint execMap fuel round msgs).round = round + fuel := by
  intro fuel
  induction fuel with
  | zero => exact fun round msgs => ⟨rfl, rfl, rfl⟩
  | succ n ih =>
    intro round msgs
    obtain ⟨m, hm, htc⟩ := h (round + 1)
    have hne : m.tool_calls.isEmpty = false := by
      cases hmt : m.tool_calls with
      | nil => exact absurd hmt htc
      | cons a t => rfl
    simp only [loopGo, hm, hne, Bool.false_eq_true, if_false]
    obtain ⟨h1, h2, h3⟩ := ih (round + 1)
      (msgs ++ [LoopMsg.assistant m] ++ m.tool_calls.map
        (fun tc => LoopMsg.tool tc.id (dispatchTool execMap tc)))
    exact ⟨h1, h2, by omega⟩

/-- C5: against an endpoint that always requests tool calls and never
returns plain text, `runCustomProvider` terminates in the error state
with the `Max tool rounds exceeded` message after exactly 30 completion
rounds, never more. -/
theorem c5_round_budget (endpoint : Nat → Completion)
    (execMap : String → Option (String → String))
    (store : String → Option (List LoopMsg)) (freshId : String) (input : RunInput)
    (h : ∀ n, toolCallResponse (endpoint n)) :
    (runCP endpoint execMap store freshId input).output
      = ⟨"error", none, some "Max tool rounds exceeded"⟩
    ∧ (runCP endpoint execMap store freshId input).endpointCalls = 30 := by
  obtain ⟨h1, h2, h3⟩ := loopGo_all_tool_calls endpoint execMap h maxRounds 0
    (((store (input.sessionId.getD freshId)).getD []) ++
      [LoopMsg.user (if input.isScheduledTask then scheduledMarker ++ input.prompt
                     else input.prompt)])
  simp only [runCP, finishRun, h1, h2, h3]
  norm_num [maxRounds]

/-- The endpoint that requests the same tool call every round. -/
def epAllTools : Nat → Completion :=
  fun _ => Completion.ok (some ⟨[⟨"call-1", some "Bash", "\x7b\x7d"⟩], ChatContent.other⟩)

/-- Concrete instance of C5: the always-tool-calling endpoint is aborted
with the budget error after exactly 30 rounds. -/
theorem c5_witness :
    (runCP epAllTools (fun _ => none) (fun _ => none) "sid" ⟨"p", none, false⟩).output
      = ⟨"error", none, some "Max tool rounds exceeded"⟩
    ∧ (runCP epAllTools (fun _ => none) (fun _ => none) "sid"
        ⟨"p", none, false⟩).endpointCalls = 30 :=
  c5_round_budget epAllTools (fun _ => none) (fun _ => none) "sid" ⟨"p", none, false⟩
    (fun _ => ⟨_, rfl, by simp⟩)

/-! ## C6 — persistence only on success -/

/-- C6: `runCustomProvider` calls `saveSession` exactly once, and only on
the success path — when the run ends in any error state (round budget
exhausted, missing message, or a thrown completion call) no save happens,
so the session store is left pointwise unchanged. -/
theorem c6_persist_only_on_success (endpoint : Nat → Completion)
    (execMap : String → Option (String → String))
    (store : String → Option (List LoopMsg)) (freshId : String) (input : RunInput) :
    ((runCP endpoint execMap store freshId input).saves
      = if (runCP endpoint execMap store freshId input).output.status = "success"
        then [((runCP endpoint execMap store freshId input).sessionId,
               (runCP endpoint execMap store freshId input).finalMessages)]
        else [])
    ∧ ((runCP endpoint execMap store freshId input).output.status ≠ "success" →
        applySaves (runCP endpoint execMap store freshId input).saves store = store) := by
  have key : ∀ (sid : String) (r : LoopRes),
      (finishRun sid r).saves
        = if (finishRun sid r).output.status = "success"
          then [((finishRun sid r).sessionId, (finishRun sid r).finalMessages)]
          else [] := by
    intro sid r
    unfold finishRun
    rcases hf : r.fault with - | f
    · simp only [hf]
      split <;> simp
    · cases f <;> simp [hf]
  have hsaves := key (input.sessionId.getD freshId)
    (loopGo endpoint execMap maxRounds 0
      (((store (input.sessionId.getD freshId)).getD []) ++
        [LoopMsg.user (if input.isScheduledTask then scheduledMarker ++ input.prompt
                       else input.prompt)]))
  refine ⟨hsaves, fun hne => ?_⟩
  rw [show (runCP endpoint execMap store freshId input).saves = [] from hsaves.trans (if_neg hne)]
  rfl

/-- The endpoint whose completion call throws immediately. -/
def epThrow : Nat → Completion := fun _ => Completion.exn "boom"

/-- Concrete instance of C6: after a thrown completion call the session
store is unchanged. -/
theorem c6_witness :
    applySaves (runCP epThrow (fun _ => none) (fun _ => none) "sid"
        ⟨"p", none, false⟩).saves (fun _ => none)
      = (fun _ => none) :=
  (c6_persist_only_on_success epThrow (fun _ => none) (fun _ => none) "sid"
    ⟨"p", none, false⟩).2 (by decide)

/-! ## C7 — Grep completeness -/

/-- C7: the Grep executor misses matching lines.  For the pattern `x`
over a file whose two lines are both `x`, the regex object (created once
with the `g` flag) carries `lastIndex = 1` from the line-1 match into the
`test` of line 2, which therefore fails, and line 2 is not reported even
though it matches the pattern — the output names line 1 only, while a
fresh application of the same regex to the line-2 content `x` matches. -/
theorem c7_grep_global_state_bug :
    grepExec regexLitX [("a.txt", "x\nx")] = "a.txt:1: x"
    ∧ (regexLitX.find "x" 0).isSome = true :=
  ⟨rfl, rfl⟩

/-! ## C8 — Edit semantics -/

/-- Replacement strings without a dollar sign expand to themselves. -/
theorem expandRepl_no_dollar (m b a : List Char) :
    ∀ l : List Char, (∀ c ∈ l, c ≠ '$') → expandRepl m b a l = l := by
  intro l
  induction l with
  | nil => intro _; rfl
  | cons c rest ih =>
    intro h
    have hc : c ≠ '$' := h c (List.mem_cons_self c rest)
    unfold expandRepl
    rw [if_neg hc, ih (fun x hx => h x (List.mem_cons_of_mem c hx))]

/-- C8 counterexample: when `new_string` contains JavaScript replacement
patterns (`$&` here), `String.prototype.replace` does not substitute the
literal `new_string` — editing `abc` by replacing `b` with `$&$&`
produces `abbc`, not the literal splice `a$&$&c` the claim requires. -/
theorem c8_counterexample :
    (editExec (some "abc") "b" "$&$&" "f.txt").2 = some "abbc"
    ∧ spliceFirst "abc" "b" "$&$&" = "a$&$&c"
    ∧ ("abbc" : String) ≠ "a$&$&c" :=
  ⟨rfl, rfl, by decide⟩

/-- C8 amended: when the file contains `old_string` and `new_string`
contains no `$` character, Edit replaces exactly the first occurrence of
`old_string` by the literal `new_string`; when `old_string` does not
occur verbatim, Edit returns an error and leaves the file unchanged.
(When `new_string` contains `$`, JavaScript replacement-pattern expansion
applies instead of literal substitution.) -/
theorem c8_edit_first_occurrence (content old new path : String) :
    ((firstOcc content.data old.data).isSome = true →
      new.data.all (fun c => c != '$') = true →
      editExec (some content) old new path
        = (s!"Edited {path}", some (spliceFirst content old new)))
    ∧ (firstOcc content.data old.data = none →
      editExec (some content) old new path
        = ("Error: old_string not found in file", some content)) := by
  constructor
  · intro hocc hnd
    have hlit : expandRepl old.data (content.data.take ((firstOcc content.data old.data).getD 0))
        (content.data.drop ((firstOcc content.data old.data).getD 0 + old.data.length)) new.data
        = new.data := by
      refine expandRepl_no_dollar _ _ _ _ (fun c hc => ?_)
      have := List.all_eq_true.mp hnd c hc
      simpa using this
    obtain ⟨i, hi⟩ := Option.isSome_iff_exists.mp hocc
    simp only [editExec, hocc, if_true]
    unfold jsReplaceFirst spliceFirst
    rw [hi]
    rw [hi] at hlit
    simp only [Option.getD_some] at hlit
    have hlen : old.data.length = old.length := rfl
    rw [hlen] at hlit
    simp [hlit]
  · intro hnone
    simp only [editExec, hnone]
    rfl

/-- Concrete instance of C8 (amended): a dollar-free replacement is the
literal first-occurrence splice, and a missing `old_string` leaves the
file unchanged with an error. -/
theorem c8_witness :
    editExec (some "hello world") "world" "there" "f.txt"
      = ("Edited f.txt", some (spliceFirst "hello world" "world" "there"))
    ∧ editExec (some "hello world") "absent" "there" "f.txt"
      = ("Error: old_string not found in file", some "hello world") :=
  ⟨(c8_edit_first_occurrence "hello world" "world" "there" "f.txt").1 (by decide) (by decide),
   (c8_edit_first_occurrence "hello world" "absent" "there" "f.txt").2 (by decide)⟩

/-! ## C10 — unrecognized schedule types bypass validation -/

/-- C10: in the OpenAI-format executor, a `schedule_task` call whose
`schedule_type` is any non-empty string outside the declared enum
`{cron, interval, once}` skips all three validation branches: the payload
is written with the unrecognized type and the unvalidated value, and the
success receipt is returned. -/
theorem c10_unknown_type_bypasses_validation
    (cronOk dateOk : String → Bool) (ctx : McpCtx) (fn prompt : String)
    (vArg cmArg tgArg : Option String) (tyS v : String)
    (h1 : tyS ≠ "cron") (h2 : tyS ≠ "interval") (h3 : tyS ≠ "once") (h4 : tyS ≠ "")
    (hv : v = jsOrStr vArg "") :
    ((scheduleTaskOai cronOk dateOk ctx fn prompt (some tyS) vArg cmArg tgArg).2.map
        (fun p => (p.schedule_type, p.schedule_value)))
      = [(tyS, v)]
    ∧ (scheduleTaskOai cronOk dateOk ctx fn prompt (some tyS) vArg cmArg tgArg).1
      = s!"Task scheduled ({fn}): {tyS} - {v}" := by
  subst hv
  have hty : jsOrStr (some tyS) "cron" = tyS := by
    simp [jsOrStr, h4]
  constructor <;> simp [scheduleTaskOai, hty, h1, h2, h3]

/-- Concrete instance of C10: `schedule_type` `"weekly"` is written
unvalidated with a success receipt. -/
theorem c10_witness :
    ((scheduleTaskOai (fun _ => false) (fun _ => false) ⟨"j", "g", false⟩ "f.json"
        "p" (some "weekly") (some "whenever") none none).2.map
        (fun p => (p.schedule_type, p.schedule_value)))
      = [("weekly", "whenever")]
    ∧ (scheduleTaskOai (fun _ => false) (fun _ => false) ⟨"j", "g", false⟩ "f.json"
        "p" (some "weekly") (some "whenever") none none).1
      = s!"Task scheduled (f.json): weekly - whenever" :=
  c10_unknown_type_bypasses_validation (fun _ => false) (fun _ => false)
    ⟨"j", "g", false⟩ "f.json" "p" (some "whenever") none none "weekly" "whenever"
    (by decide) (by decide) (by decide) (by decide) (by decide)

/-! ## C9 — the interval validator -/

/-- The spec's words: the value is a positive base-10 integer, i.e. a
non-empty all-digit string of positive value. -/
def posIntString (v : String) : Bool :=
  v != "" && v.data.all Char.isDigit && decide (0 < digitsVal v.data)

/-- C9 counterexample: `"3.5"` is not a positive base-10 integer, yet the
interval validator accepts it (`parseInt('3.5', 10)` is `3`), so the
claimed if-and-only-if fails. -/
theorem c9_counterexample :
    intervalValid "3.5" = true ∧ posIntString "3.5" = false := by
  decide

/-- Declarative characterization of the strings the interval validator
accepts: after a block of leading whitespace and an optional plus sign, a
non-empty run of decimal digits of positive value, followed by anything
that does not extend the digit run. -/
def parseIntAcceptsPos (v : String) : Prop :=
  ∃ ws sgn ds rest : List Char,
    v.data = ws ++ (sgn ++ (ds ++ rest)) ∧
    (∀ c ∈ ws, jsWs c = true) ∧
    (sgn = [] ∨ sgn = ['+']) ∧
    ds ≠ [] ∧ (∀ c ∈ ds, c.isDigit = true) ∧
    (∀ c, rest.head? = some c → c.isDigit = false) ∧
    0 < digitsVal ds

/-- C9 amended: the interval validator accepts a value if and only if,
after optional leading whitespace and an optional plus sign, the value
starts with a non-empty digit run of positive numeric value — the
`parseInt` prefix semantics.  In particular `"300000"` is accepted and
`"-5"`, `"0"`, `"abc"` are rejected, but strings such as `"3.5"` or
`"300000abc"` are accepted as well, so acceptance is not equivalent to
being a positive base-10 integer string. -/
theorem c9_interval_accepts_iff (v : String) :
    intervalValid v = true ↔ parseIntAcceptsPos v := by
  constructor
  · intro h
    unfold intervalValid parseIntBase10 at h
    rcases hcs : v.data.dropWhile jsWs with - | ⟨c, t⟩
    · rw [hcs] at h
      simp [stripSign] at h
    · rw [hcs] at h
      have hvsplit : v.data.takeWhile jsWs ++ (c :: t) = v.data := by
        rw [← hcs]
        exact List.takeWhile_append_dropWhile jsWs v.data
      by_cases hm : c = '-'
      · subst hm
        have hps : stripSign ('-' :: t) = (true, t) := by
          simp [stripSign]
        rw [hps] at h
        by_cases hde : ((t.takeWhile Char.isDigit).isEmpty : Bool) = true
        · rw [if_pos hde] at h
          simp at h
        · rw [if_neg hde] at h
          simp at h
          omega
      · by_cases hp : c = '+'
        · subst hp
          have hps : stripSign ('+' :: t) = (false, t) := by
            simp [stripSign]
          rw [hps] at h
          by_cases hde : ((t.takeWhile Char.isDigit).isEmpty : Bool) = true
          · rw [if_pos hde] at h
            simp at h
          · rw [if_neg hde] at h
            simp at h
            refine ⟨v.data.takeWhile jsWs, ['+'], t.takeWhile Char.isDigit,
              t.dropWhile Char.isDigit, ?_, ?_, Or.inr rfl, ?_, ?_, ?_, ?_⟩
            · calc v.data = v.data.takeWhile jsWs ++ ('+' :: t) := hvsplit.symm
                _ = v.data.takeWhile jsWs ++ (['+'] ++ (t.takeWhile Char.isDigit
                      ++ t.dropWhile Char.isDigit)) := by
                  simp [List.takeWhile_append_dropWhile]
            · exact fun x hx => mem_takeWhile_pred hx
            · intro hnil
              rw [hnil] at hde
              exact hde rfl
            · exact fun x hx => mem_takeWhile_pred hx
            · exact fun x hx => head_dropWhile_pred hx
            · exact_mod_cast h
        · have hps : stripSign (c :: t) = (false, c :: t) := by
            simp [stripSign, hm, hp]
          rw [hps] at h
          by_cases hde : (((c :: t).takeWhile Char.isDigit).isEmpty : Bool) = true
          · rw [if_pos hde] at h
            simp at h
          · rw [if_neg hde] at h
            simp at h
            refine ⟨v.data.takeWhile jsWs, [], (c :: t).takeWhile Char.isDigit,
              (c :: t).dropWhile Char.isDigit, ?_, ?_, Or.inl rfl, ?_, ?_, ?_, ?_⟩
            · calc v.data = v.data.takeWhile jsWs ++ (c :: t) := hvsplit.symm
                _ = v.data.takeWhile jsWs ++ ([] ++ ((c :: t).takeWhile Char.isDigit
                      ++ (c :: t).dropWhile Char.isDigit)) := by
                  simp [List.takeWhile_append_dropWhile]
            · exact fun x hx => mem_takeWhile_pred hx
            · intro hnil
              rw [hnil] at hde
              exact hde rfl
            · exact fun x hx => mem_takeWhile_pred hx
            · exact fun x hx => head_dropWhile_pred hx
            · exact_mod_cast h
  · rintro ⟨ws, sgn, ds, rest, hsplit, hws, hsgn, hdsne, hdig, hrest, hpos⟩
    obtain ⟨d, dt, rfl⟩ : ∃ d dt, ds = d :: dt := by
      cases ds with
      | nil => exact absurd rfl hdsne
      | cons d dt => exact ⟨d, dt, rfl⟩
    have hd : d.isDigit = true := hdig d (List.mem_cons_self d dt)
    have htake : ((d :: dt) ++ rest).takeWhile Char.isDigit = d :: dt :=
      takeWhile_append_all hdig hrest
    unfold intervalValid parseIntBase10
    rcases hsgn with rfl | rfl
    · have hdrop : v.data.dropWhile jsWs = (d :: dt) ++ rest := by
        rw [hsplit, dropWhile_append_all hws, List.nil_append]
        refine dropWhile_head_neg (fun x hx => ?_)
        simp at hx
        rw [← hx]
        exact not_jsWs_of_digit hd
      rw [hdrop]
      have hps : stripSign ((d :: dt) ++ rest) = (false, d :: (dt ++ rest)) := by
        simp [stripSign, (digit_ne_sign hd).1, (digit_ne_sign hd).2]
      rw [hps]
      simp only [List.cons_append] at htake
      simp [htake, hd, hpos]
    · have hdrop : v.data.dropWhile jsWs = '+' :: ((d :: dt) ++ rest) := by
        rw [hsplit, dropWhile_append_all hws]
        have hplus : (('+' :: ((d :: dt) ++ rest)) : List Char).dropWhile jsWs
            = '+' :: ((d :: dt) ++ rest) := by
          refine dropWhile_head_neg (fun x hx => ?_)
          simp at hx
          rw [← hx]
          rfl
        simpa using hplus
      rw [hdrop]
      have hps : stripSign ('+' :: ((d :: dt) ++ rest)) = (false, (d :: dt) ++ rest) := by
        simp [stripSign]
      rw [hps]
      simp only [List.cons_append] at htake
      simp [htake, hd, hpos]

/-- Concrete instance of C9 (amended): the validator accepts `"3000"`,
matching the declarative characterization. -/
theorem c9_witness : parseIntAcceptsPos "3000" :=
  (c9_interval_accepts_iff "3000").mp (by decide)

end NanoClaw
